import Mathlib

set_option maxHeartbeats 1000000
set_option maxRecDepth 4000

/-!
Shallow embedding of the RSigma concurrent spreadsheet engine
(`src/spreadsheet.rs`).  The Rust `Instant` timestamps are modelled as
natural numbers, the `HashMap<CellIdentifier, CellInfo>` store as an
association list, and `HashSet<CellIdentifier>` dependent sets as lists
with set-style insert/remove.  The external expression evaluator
(`rsheet_lib`) is out of the repository; its observable interactions
(`find_variable_names`, `evaluate`) enter the embedding as parameters,
and cell-identifier parsing is modelled from the spec.
-/

/-- A cell identifier: zero-based (column, row) pair, mirroring
`rsheet_lib::command::CellIdentifier` as described by the spec. -/
structure CellIdentifier where
  col : Nat
  row : Nat
deriving DecidableEq

/-- Cell values, mirroring `rsheet_lib::cell_value::CellValue`:
integer, string literal, error with message, or absent (`None`). -/
inductive CellValue where
  | Int : Int → CellValue
  | Str : String → CellValue
  | Error : String → CellValue
  | None : CellValue
deriving DecidableEq

/-- `matches!(v, CellValue::Error(_))` from the source. -/
def CellValue.isError : CellValue → Bool
  | .Error _ => true
  | _ => false

/-- Monotonic timestamps (`std::time::Instant`) modelled as naturals. -/
abbrev Timestamp := Nat

/-- The `CellInfo` record of `src/spreadsheet.rs` lines 29-35. -/
structure CellInfo where
  value : CellValue
  expression : String
  dependencies : List CellIdentifier
  dependents : List CellIdentifier
  last_update_time : Timestamp
deriving DecidableEq

/-- The cell store: `HashMap<CellIdentifier, CellInfo>` as an association
list with at most one binding per key (maintained by `insertStore`). -/
abbrev Store := List (CellIdentifier × CellInfo)

/-- `HashMap::get`. -/
def lookupCell : Store → CellIdentifier → Option CellInfo
  | [], _ => none
  | (k, v) :: rest, cid => if k = cid then some v else lookupCell rest cid

/-- `HashMap::insert`: replace the binding if the key is present,
otherwise add it. -/
def insertStore : Store → CellIdentifier → CellInfo → Store
  | [], cid, info => [(cid, info)]
  | (k, v) :: rest, cid, info =>
      if k = cid then (cid, info) :: rest else (k, v) :: insertStore rest cid info

/-- `HashMap::get_mut` followed by an in-place mutation: apply `f` to the
record at `cid` when it exists, otherwise leave the store unchanged. -/
def modifyCell (s : Store) (cid : CellIdentifier) (f : CellInfo → CellInfo) : Store :=
  match lookupCell s cid with
  | some info => insertStore s cid (f info)
  | none => s

/-- `HashSet::insert` on a dependent set modelled as a list. -/
def insertDep (l : List CellIdentifier) (cid : CellIdentifier) : List CellIdentifier :=
  if cid ∈ l then l else l ++ [cid]

/-- `HashSet::remove` on a dependent set modelled as a list. -/
def removeDep (l : List CellIdentifier) (cid : CellIdentifier) : List CellIdentifier :=
  l.filter (fun x => x ≠ cid)

/-- Modelled from the spec: `rsheet_lib` cell-identifier parsing (the
library is external to the repository).  A token is column letters
followed by the one-based row number; letters map bijectively base-26
(`A` = column 0, `Z` = 25, `AA` = 26). -/
def parseCellChars (l : List Char) : Option CellIdentifier :=
  let isLetter := fun c : Char => decide (65 ≤ c.toNat) && decide (c.toNat ≤ 90)
  let isDigit := fun c : Char => decide (48 ≤ c.toNat) && decide (c.toNat ≤ 57)
  let letters := l.takeWhile isLetter
  let digits := l.drop letters.length
  if letters.isEmpty then none
  else if digits.isEmpty then none
  else if digits.all isDigit then
    let colNum := letters.foldl (fun acc c => acc * 26 + (c.toNat - 64)) 0
    let rowNum := digits.foldl (fun acc c => acc * 10 + (c.toNat - 48)) 0
    if rowNum = 0 then none else some ⟨colNum - 1, rowNum - 1⟩
  else none

/-- `var_name.parse::<CellIdentifier>()`. -/
def parseCellIdentifier (s : String) : Option CellIdentifier :=
  parseCellChars s.toList

/-- `var_name.contains('_')`. -/
def hasUnderscore (s : String) : Bool :=
  s.toList.contains '_'

/-- Rust `str::split('_')` on the character list. -/
def splitUnder : List Char → List (List Char)
  | [] => [[]]
  | c :: rest =>
      let r := splitUnder rest
      if c = '_' then [] :: r
      else
        match r with
        | [] => [[c]]
        | h :: t => (c :: h) :: t

/-- `Spreadsheet::parse_range` (`src/spreadsheet.rs` lines 269-283):
split on `'_'`, require exactly two parts, parse both as cell ids.
No ordering check is performed on the two endpoints. -/
def parse_range (range : String) : Option (CellIdentifier × CellIdentifier) :=
  match splitUnder range.toList with
  | [a, b] =>
      match parseCellChars a, parseCellChars b with
      | some s, some e => some (s, e)
      | _, _ => none
  | _ => none

/-- Rust inclusive range `a..=b` as a list (empty when `b < a`). -/
def rangeIncl (a b : Nat) : List Nat :=
  (List.range (b + 1 - a)).map (fun i => a + i)

/-- The nested `for row in start.row..=end.row { for col in ... }` loop
expanding a range into its constituent cells, row-major. -/
def rangeCells (s e : CellIdentifier) : List CellIdentifier :=
  (rangeIncl s.row e.row).flatMap (fun row =>
    (rangeIncl s.col e.col).map (fun col => CellIdentifier.mk col row))

/-- The dependency-collection loop of `Spreadsheet::set`
(`src/spreadsheet.rs` lines 126-140), applied to the variable-name
tokens reported by the external `cell_expr.find_variable_names()`. -/
def computeDependencies (varNames : List String) : List CellIdentifier :=
  varNames.foldl (fun acc var_name =>
    if hasUnderscore var_name = false then
      match parseCellIdentifier var_name with
      | some dep_id => acc ++ [dep_id]
      | none => acc
    else
      match parse_range var_name with
      | some (s, e) => acc ++ rangeCells s e
      | none => acc) []

namespace Spreadsheet

/-- The `if let Some(dep_info) = cells.get(dep) { matches!(dep_info.value,
CellValue::Error(_)) }` test shared by `get` and `get_range_argument`:
does this cell exist and currently hold an error value? -/
def errorAt (cells : Store) (cid : CellIdentifier) : Bool :=
  match lookupCell cells cid with
  | some info => info.value.isError
  | none => false

/-- `Spreadsheet::get` (`src/spreadsheet.rs` lines 88-103): absent cell
returns `None`; otherwise any existing dependency holding an error makes
the read return `Error "VariableDependsOnError"`; otherwise the stored
value. -/
def get (cells : Store) (cell_id : CellIdentifier) : CellValue :=
  match lookupCell cells cell_id with
  | some cell_info =>
      if cell_info.dependencies.any (fun dep => errorAt cells dep)
      then CellValue.Error "VariableDependsOnError"
      else cell_info.value
  | none => CellValue.None

/-- The old forward-dependency list captured at the top of
`update_cell_info` (empty when the cell is new). -/
def old_dependencies_of (s : Store) (cid : CellIdentifier) : List CellIdentifier :=
  match lookupCell s cid with
  | some c => c.dependencies
  | none => []

/-- The old dependent set captured at the top of `update_cell_info`
(empty when the cell is new). -/
def old_dependents_of (s : Store) (cid : CellIdentifier) : List CellIdentifier :=
  match lookupCell s cid with
  | some c => c.dependents
  | none => []

/-- Loop 1 of `update_cell_info`: remove this cell from each old
dependency's dependent set (when that dependency exists). -/
def removeSelfFromOldDeps : Store → List CellIdentifier → CellIdentifier → Store
  | s, [], _ => s
  | s, d :: rest, cid =>
      removeSelfFromOldDeps
        (modifyCell s d (fun c => { c with dependents := removeDep c.dependents cid }))
        rest cid

/-- Loop 2 of `update_cell_info`: add this cell to each new dependency's
dependent set (only when that dependency already exists in the store). -/
def addSelfToNewDeps : Store → List CellIdentifier → CellIdentifier → Store
  | s, [], _ => s
  | s, d :: rest, cid =>
      addSelfToNewDeps
        (modifyCell s d (fun c => { c with dependents := insertDep c.dependents cid }))
        rest cid

/-- `Spreadsheet::update_cell_info` (`src/spreadsheet.rs` lines 175-224),
minus the channel send (the emitted change event is modelled separately
by the worker functions).  The final insert writes the new value,
expression, dependencies and timestamp, preserving the previously
accumulated dependents. -/
def update_cell_info (s : Store) (cell_id : CellIdentifier) (value : CellValue)
    (expression : String) (dependencies : List CellIdentifier)
    (current_time : Timestamp) : Store :=
  let old_dependencies := old_dependencies_of s cell_id
  let old_dependents := old_dependents_of s cell_id
  let s1 := removeSelfFromOldDeps s old_dependencies cell_id
  let s2 := addSelfToNewDeps s1 dependencies cell_id
  insertStore s2 cell_id
    { value := value
      expression := expression
      dependencies := dependencies
      dependents := old_dependents
      last_update_time := current_time }

/-- Outcome of the external `cell_expr.evaluate(&variables)` call:
`Ok(value)` (local failures arrive as `Ok(Error(msg))`) or the
`CellExprEvalError::VariableDependsOnError` signal. -/
inductive EvalOutcome where
  | ok : CellValue → EvalOutcome
  | variableDependsOnError : EvalOutcome
deriving DecidableEq

/-- The value `set`/the worker stores for a given evaluation outcome. -/
def outcomeValue : EvalOutcome → CellValue
  | .ok v => v
  | .variableDependsOnError => CellValue.Error "VariableDependsOnError"

/-- `Spreadsheet::set` (`src/spreadsheet.rs` lines 117-161).  The
external evaluator's variable-name tokens and evaluation outcome are
parameters; `current_time` is the `Instant::now()` taken at the start of
the call.  Both evaluation outcomes commit through `update_cell_info`. -/
def set (cells : Store) (cell_id : CellIdentifier) (expression : String)
    (varNames : List String) (outcome : EvalOutcome)
    (current_time : Timestamp) : Store :=
  let dependencies := computeDependencies varNames
  match outcome with
  | .ok v => update_cell_info cells cell_id v expression dependencies current_time
  | .variableDependsOnError =>
      update_cell_info cells cell_id (CellValue.Error "VariableDependsOnError")
        expression dependencies current_time

end Spreadsheet

/-- Bindings passed to the evaluator, mirroring
`rsheet_lib::cell_expr::CellArgument`: scalar value, 1-D vector, or 2-D
matrix. -/
inductive CellArgument where
  | Value : CellValue → CellArgument
  | Vector : List CellValue → CellArgument
  | Matrix : List (List CellValue) → CellArgument
deriving DecidableEq

/-- The `HashMap<String, CellArgument>` of variable bindings, as an
association list with at most one binding per key. -/
abbrev Bindings := List (String × CellArgument)

/-- `HashMap::insert` on a bindings map. -/
def bput : Bindings → String → CellArgument → Bindings
  | [], k, a => [(k, a)]
  | (k0, a0) :: rest, k, a =>
      if k0 = k then (k, a) :: rest else (k0, a0) :: bput rest k a

/-- `HashMap::get` on a bindings map. -/
def blookup : Bindings → String → Option CellArgument
  | [], _ => none
  | (k0, a0) :: rest, k => if k0 = k then some a0 else blookup rest k

namespace Spreadsheet

/-- `Spreadsheet::get_vertical_vector` (`src/spreadsheet.rs` lines
338-348): values of the single-column range, top to bottom, each read
through `get`. -/
def get_vertical_vector (cells : Store) (s e : CellIdentifier) : CellArgument :=
  CellArgument.Vector ((rangeIncl s.row e.row).map (fun row =>
    get cells ⟨s.col, row⟩))

/-- `Spreadsheet::get_horizontal_vector` (`src/spreadsheet.rs` lines
360-370): values of the single-row range, left to right, each read
through `get`. -/
def get_horizontal_vector (cells : Store) (s e : CellIdentifier) : CellArgument :=
  CellArgument.Vector ((rangeIncl s.col e.col).map (fun col =>
    get cells ⟨col, s.row⟩))

/-- `Spreadsheet::get_matrix` (`src/spreadsheet.rs` lines 383-392):
row-major matrix of the range's values, each read through `get`. -/
def get_matrix (cells : Store) (s e : CellIdentifier) : CellArgument :=
  CellArgument.Matrix ((rangeIncl s.row e.row).map (fun row =>
    (rangeIncl s.col e.col).map (fun col => get cells ⟨col, row⟩)))

/-- The error scan at the top of `get_range_argument`
(`src/spreadsheet.rs` lines 300-309): does any existing cell of the
range hold an `Error(_)` value? -/
def rangeHasErrors (cells : Store) (s e : CellIdentifier) : Bool :=
  (rangeIncl s.row e.row).any (fun row =>
    (rangeIncl s.col e.col).any (fun col => errorAt cells ⟨col, row⟩))

/-- `Spreadsheet::get_range_argument` (`src/spreadsheet.rs` lines
296-326): error short-circuit, then vertical / horizontal / matrix by
shape. -/
def get_range_argument (cells : Store) (s e : CellIdentifier) : CellArgument :=
  if rangeHasErrors cells s e then
    CellArgument.Value (CellValue.Error "VariableDependsOnError")
  else if s.col = e.col then get_vertical_vector cells s e
  else if s.row = e.row then get_horizontal_vector cells s e
  else get_matrix cells s e

/-- `Spreadsheet::resolve_variables` (`src/spreadsheet.rs` lines
237-257), applied to the tokens of `cell_expr.find_variable_names()`:
ranges go through `get_range_argument`, scalars through `get` (so a
missing scalar cell is bound to `CellValue.None`). -/
def resolve_variables (cells : Store) (varNames : List String) : Bindings :=
  varNames.foldl (fun vars var_name =>
    if hasUnderscore var_name then
      match parse_range var_name with
      | some (s, e) => bput vars var_name (get_range_argument cells s e)
      | none => vars
    else
      match parseCellIdentifier var_name with
      | some cell_id => bput vars var_name (CellArgument.Value (get cells cell_id))
      | none => vars) []

/-- The raw stored value used by the worker's Stage-3 gather:
`cells_lock.get(&id).map(|c| c.value.clone()).unwrap_or(CellValue::None)`. -/
def rawValue (cells : Store) (cid : CellIdentifier) : CellValue :=
  match lookupCell cells cid with
  | some c => c.value
  | none => CellValue.None

/-- The range-argument construction inside the worker's Stage-3 gather
(`src/spreadsheet.rs` lines 529-577): shaped container of raw stored
values, missing cells as `None`, with no error short-circuit. -/
def worker_range_argument (cells : Store) (s e : CellIdentifier) : CellArgument :=
  if s.col = e.col then
    CellArgument.Vector ((rangeIncl s.row e.row).map (fun row =>
      rawValue cells ⟨s.col, row⟩))
  else if s.row = e.row then
    CellArgument.Vector ((rangeIncl s.col e.col).map (fun col =>
      rawValue cells ⟨col, s.row⟩))
  else
    CellArgument.Matrix ((rangeIncl s.row e.row).map (fun row =>
      (rangeIncl s.col e.col).map (fun col => rawValue cells ⟨col, row⟩)))

/-- The worker's Stage-3 variable gather (`src/spreadsheet.rs` lines
514-582): scalars are bound only when the cell exists (to the raw stored
value), ranges always to the shaped raw container. -/
def worker_gather (cells : Store) (varNames : List String) : Bindings :=
  varNames.foldl (fun vars var_name =>
    if hasUnderscore var_name = false then
      match parseCellIdentifier var_name with
      | some var_id =>
          match lookupCell cells var_id with
          | some cell => bput vars var_name (CellArgument.Value cell.value)
          | none => vars
      | none => vars
    else
      match parse_range var_name with
      | some (s, e) => bput vars var_name (worker_range_argument cells s e)
      | none => vars) []

/-- `cell.dependents` of an existing cell, `unwrap_or_default()` when
missing (worker Stage 1, `src/spreadsheet.rs` lines 427-433). -/
def dependentsOf (cells : Store) (cid : CellIdentifier) : List CellIdentifier :=
  match lookupCell cells cid with
  | some c => c.dependents
  | none => []

/-- The worker's `HashMap<CellIdentifier, HashSet<CellIdentifier>>`
dependency graph, as an association list. -/
abbrev Graph := List (CellIdentifier × List CellIdentifier)

/-- `dependency_graph.entry(dep_id).or_default().insert(current_id)`. -/
def graphInsert : Graph → CellIdentifier → CellIdentifier → Graph
  | [], k, v => [(k, [v])]
  | (k0, vs) :: rest, k, v =>
      if k0 = k then (k, insertDep vs v) :: rest
      else (k0, vs) :: graphInsert rest k v

/-- `dependency_graph.get(&node)`, defaulting to no successors. -/
def graphLookup : Graph → CellIdentifier → List CellIdentifier
  | [], _ => []
  | (k0, vs) :: rest, k => if k0 = k then vs else graphLookup rest k

/-- The keys of the worker's dependency graph. -/
def graphKeys (g : Graph) : List CellIdentifier := g.map (fun p => p.1)

/-- Every node mentioned by the graph: keys and edge targets. -/
def graphNodes (g : Graph) : List CellIdentifier :=
  g.flatMap (fun p => p.1 :: p.2)

/-- One iteration of the inner `for &dep_id in &dependents` loop of
worker Stage 1: record the edge `dep_id → current`, and when
`discovered.insert(dep_id)` is fresh also push `dep_id` on the queue.
State is (graph, discovered, queue). -/
def bfsStep (current : CellIdentifier)
    (st : Graph × List CellIdentifier × List CellIdentifier)
    (dep_id : CellIdentifier) : Graph × List CellIdentifier × List CellIdentifier :=
  (graphInsert st.1 dep_id current,
   if dep_id ∈ st.2.1 then st.2.1 else st.2.1 ++ [dep_id],
   if dep_id ∈ st.2.1 then st.2.2 else st.2.2 ++ [dep_id])

/-- Worker Stage 1 (`src/spreadsheet.rs` lines 415-445): BFS from the
changed cell over `dependents` edges, recording edge `dep_id →
current_id` for every dependent met.  The fuel argument bounds the loop
(the Rust loop terminates because `discovered` is finite). -/
def bfsLoop (cells : Store) :
    Nat → List CellIdentifier → List CellIdentifier → Graph →
    Graph × List CellIdentifier
  | 0, _, discovered, graph => (graph, discovered)
  | _ + 1, [], discovered, graph => (graph, discovered)
  | fuel + 1, current :: rest, discovered, graph =>
      let step := (dependentsOf cells current).foldl (bfsStep current)
        (graph, discovered, rest)
      bfsLoop cells fuel step.2.2 step.2.1 step.1

/-- The `visit` function of the worker's DFS topological sort
(`src/spreadsheet.rs` lines 453-484).  State is (permanent marks,
temporary marks, sorted output); the fuel bounds recursion depth (the
Rust recursion terminates because marks grow). -/
def visitTopo (graph : Graph) :
    Nat → CellIdentifier → List CellIdentifier → List CellIdentifier →
    List CellIdentifier →
    List CellIdentifier × List CellIdentifier × List CellIdentifier
  | 0, _, perm, temp, sorted => (perm, temp, sorted)
  | fuel + 1, node, perm, temp, sorted =>
      if node ∈ perm then (perm, temp, sorted)
      else if node ∈ temp then (perm, temp, sorted)
      else
        let st2 := (graphLookup graph node).foldl
          (fun (st : List CellIdentifier × List CellIdentifier × List CellIdentifier)
               dep => visitTopo graph fuel dep st.1 st.2.1 st.2.2)
          (perm, node :: temp, sorted)
        (st2.1 ++ [node], st2.2.1.filter (fun x => x ≠ node), st2.2.2 ++ [node])

/-- Worker Stage 2 (`src/spreadsheet.rs` lines 447-497): run `visit` on
every unmarked key of the dependency graph; the accumulated `sorted`
list is the recomputation order. -/
def topoSort (graph : Graph) (fuel : Nat) : List CellIdentifier :=
  (graphKeys graph).foldl
    (fun (st : List CellIdentifier × List CellIdentifier × List CellIdentifier) node =>
      if node ∈ st.1 then st
      else visitTopo graph fuel node st.1 st.2.1 st.2.2)
    ([], [], []) |>.2.2

/-- The recomputation order the worker produces for one change event:
Stage 1 BFS from `cell_id`, then Stage 2 topological sort. -/
def update_order (cells : Store) (cell_id : CellIdentifier) (fuel : Nat) :
    List CellIdentifier :=
  let bfs := bfsLoop cells fuel [cell_id] [cell_id] []
  topoSort bfs.1 fuel

/-- The timestamp-guarded commit at the end of worker Stage 3
(`src/spreadsheet.rs` lines 585-607): write the evaluated value and the
recompute's timestamp only when that timestamp is strictly greater than
the cell's `last_update_time`; otherwise leave the record alone.  Both
evaluator outcomes use the same guard. -/
def commitRecompute (cells : Store) (cell_id : CellIdentifier)
    (outcome : EvalOutcome) (current_time : Timestamp) : Store :=
  match outcome with
  | .ok new_value =>
      modifyCell cells cell_id (fun cell =>
        if cell.last_update_time < current_time then
          { cell with value := new_value, last_update_time := current_time }
        else cell)
  | .variableDependsOnError =>
      modifyCell cells cell_id (fun cell =>
        if cell.last_update_time < current_time then
          { cell with
            value := CellValue.Error "VariableDependsOnError"
            last_update_time := current_time }
        else cell)

/-- Worker Stage 3 (`src/spreadsheet.rs` lines 499-608): process the
ordered cells one by one — snapshot the stored expression (skip missing
cells), gather variables with `worker_gather`, evaluate via the external
evaluator (`evalOracle`, a parameter, fed the expression's tokens from
`varNamesOf`), and commit through the timestamp guard.  `times` supplies
the successive `Instant::now()` readings. -/
def processOrderedCells (varNamesOf : String → List String)
    (evalOracle : String → Bindings → EvalOutcome) :
    Store → List CellIdentifier → List Timestamp → Store
  | cells, [], _ => cells
  | cells, _ :: _, [] => cells
  | cells, cell_id :: order, t :: times =>
      match lookupCell cells cell_id with
      | none => processOrderedCells varNamesOf evalOracle cells order (t :: times)
      | some cell =>
          let vars := worker_gather cells (varNamesOf cell.expression)
          let outcome := evalOracle cell.expression vars
          processOrderedCells varNamesOf evalOracle
            (commitRecompute cells cell_id outcome t) order times

end Spreadsheet

/-- Reflexive-transitive reachability along `dependents` (reverse-dep)
edges in a fixed store: the cells that transitively depend on the
origin, together with the origin itself. -/
inductive Reaches (cells : Store) : CellIdentifier → CellIdentifier → Prop
  | refl (x : CellIdentifier) : Reaches cells x x
  | step {x y z : CellIdentifier} : Reaches cells x y →
      z ∈ Spreadsheet.dependentsOf cells y → Reaches cells x z

/-! ## Concrete stores and oracles used by counterexamples and witnesses -/

/-- Cell A1. -/
def cxA1 : CellIdentifier := ⟨0, 0⟩

/-- Cell B1. -/
def cxB1 : CellIdentifier := ⟨1, 0⟩

/-- Cell C1. -/
def cxC1 : CellIdentifier := ⟨2, 0⟩

/-- `set C1 "B1 + 1"` while B1 does not exist yet: C1 records a forward
dependency on the missing B1. -/
def cxStoreForward : Store :=
  Spreadsheet.set [] cxC1 "B1 + 1" ["B1"] (.ok (.Int 1)) 1

/-- ... then `set B1 "5"` creates B1 afterwards. -/
def cxStoreLateTarget : Store :=
  Spreadsheet.set cxStoreForward cxB1 "5" [] (.ok (.Int 5)) 2

/-- A `set` of A1 that started at time 2 and committed first. -/
def cxStoreNewerFirst : Store :=
  Spreadsheet.set [] cxA1 "newer" [] (.ok (.Int 20)) 2

/-- ... then a slower `set` of A1 that started at time 1 commits second. -/
def cxStoreOlderLast : Store :=
  Spreadsheet.set cxStoreNewerFirst cxA1 "older" [] (.ok (.Int 10)) 1

/-- `set A1 "5"`. -/
def cxChain1 : Store :=
  Spreadsheet.set [] cxA1 "5" [] (.ok (.Int 5)) 1

/-- ... then `set B1 "A1 + 1"`, so B1 is a dependent of A1. -/
def cxChain2 : Store :=
  Spreadsheet.set cxChain1 cxB1 "A1 + 1" ["A1"] (.ok (.Int 6)) 2

/-- Variable-name oracle for the worker counterexample: the literal `"5"`
has no variables, `"A1 + 1"` reads A1. -/
def cxVarNames : String → List String :=
  fun e => if e = "5" then [] else ["A1"]

/-- Evaluation oracle for the worker counterexample. -/
def cxEval : String → Bindings → Spreadsheet.EvalOutcome :=
  fun e _ => if e = "5" then .ok (.Int 5) else .ok (.Int 6)

/-- A store where A1 holds a local evaluation error. -/
def cxErrStore : Store :=
  Spreadsheet.set [] cxA1 "bad" [] (.ok (.Error "x")) 1

/-- ... and B1 depends on the error cell A1. -/
def cxErrStore2 : Store :=
  Spreadsheet.set cxErrStore cxB1 "A1 + 1" ["A1"] .variableDependsOnError 2

-- Sanity checks on the spec-modelled parser.
example : parseCellIdentifier "A1" = some ⟨0, 0⟩ := by decide
example : parseCellIdentifier "B2" = some ⟨1, 1⟩ := by decide
example : parseCellIdentifier "AA10" = some ⟨26, 9⟩ := by decide
example : parseCellIdentifier "A1_B2" = none := by decide
example : parse_range "A1_B2" = some (⟨0, 0⟩, ⟨1, 1⟩) := by decide
example : parse_range "A1_B2_C3" = none := by decide
example : hasUnderscore "A1_B2" = true := by decide
example : rangeCells ⟨0, 0⟩ ⟨1, 1⟩ = [⟨0, 0⟩, ⟨1, 0⟩, ⟨0, 1⟩, ⟨1, 1⟩] := by decide
example : rangeCells ⟨1, 1⟩ ⟨0, 0⟩ = [] := by decide

/-! ## Store lemmas -/

theorem lookupCell_insertStore_self (s : Store) (cid : CellIdentifier)
    (info : CellInfo) : lookupCell (insertStore s cid info) cid = some info := by
  induction s with
  | nil => simp [insertStore, lookupCell]
  | cons hd tl ih =>
      obtain ⟨k, v⟩ := hd
      by_cases h : k = cid
      · simp [insertStore, h, lookupCell]
      · simp [insertStore, h, lookupCell, ih]

theorem lookupCell_insertStore_ne (s : Store) (cid d : CellIdentifier)
    (info : CellInfo) (h : d ≠ cid) :
    lookupCell (insertStore s cid info) d = lookupCell s d := by
  have h' : ¬ cid = d := fun hh => h hh.symm
  induction s with
  | nil => simp [insertStore, lookupCell, h']
  | cons hd tl ih =>
      obtain ⟨k, v⟩ := hd
      by_cases hk : k = cid
      · subst hk
        simp [insertStore, lookupCell, h']
      · simp [insertStore, hk, lookupCell, ih]

theorem lookupCell_modifyCell_ne (s : Store) (cid d : CellIdentifier)
    (f : CellInfo → CellInfo) (h : d ≠ cid) :
    lookupCell (modifyCell s cid f) d = lookupCell s d := by
  unfold modifyCell
  cases hl : lookupCell s cid with
  | none => rfl
  | some c => exact lookupCell_insertStore_ne s cid d (f c) h

theorem lookupCell_modifyCell_self (s : Store) (cid : CellIdentifier)
    (f : CellInfo → CellInfo) (c : CellInfo) (h : lookupCell s cid = some c) :
    lookupCell (modifyCell s cid f) cid = some (f c) := by
  unfold modifyCell
  rw [h]
  exact lookupCell_insertStore_self s cid (f c)

theorem lookupCell_modifyCell_isSome (s : Store) (cid d : CellIdentifier)
    (f : CellInfo → CellInfo) :
    (lookupCell (modifyCell s cid f) d).isSome = (lookupCell s d).isSome := by
  by_cases hd : d = cid
  · subst hd
    cases hl : lookupCell s d with
    | none => simp [modifyCell, hl]
    | some c => rw [lookupCell_modifyCell_self s d f c hl]; rfl

  · rw [lookupCell_modifyCell_ne s cid d f hd]

/-! ## Dependency-tracker lemmas -/

theorem mem_insertDep (l : List CellIdentifier) (cid : CellIdentifier) :
    cid ∈ insertDep l cid := by
  unfold insertDep
  by_cases h : cid ∈ l
  · simp [h]
  · simp [h]

theorem mem_insertDep_of_mem (l : List CellIdentifier) (x cid : CellIdentifier)
    (h : x ∈ l) : x ∈ insertDep l cid := by
  unfold insertDep
  by_cases hm : cid ∈ l
  · simp [hm, h]
  · simp [hm]
    exact Or.inl h

theorem addSelfToNewDeps_isSome (deps : List CellIdentifier) (s : Store)
    (cid d : CellIdentifier) :
    (lookupCell (Spreadsheet.addSelfToNewDeps s deps cid) d).isSome
      = (lookupCell s d).isSome := by
  induction deps generalizing s with
  | nil => rfl
  | cons hd tl ih =>
      rw [Spreadsheet.addSelfToNewDeps, ih, lookupCell_modifyCell_isSome]

theorem removeSelfFromOldDeps_isSome (old : List CellIdentifier) (s : Store)
    (cid d : CellIdentifier) :
    (lookupCell (Spreadsheet.removeSelfFromOldDeps s old cid) d).isSome
      = (lookupCell s d).isSome := by
  induction old generalizing s with
  | nil => rfl
  | cons hd tl ih =>
      rw [Spreadsheet.removeSelfFromOldDeps, ih, lookupCell_modifyCell_isSome]

theorem addSelfToNewDeps_preserves_mem (deps : List CellIdentifier) (s : Store)
    (cid d : CellIdentifier) (c : CellInfo) (hl : lookupCell s d = some c)
    (hm : cid ∈ c.dependents) :
    ∃ c', lookupCell (Spreadsheet.addSelfToNewDeps s deps cid) d = some c'
      ∧ cid ∈ c'.dependents := by
  induction deps generalizing s c with
  | nil => exact ⟨c, hl, hm⟩
  | cons hd tl ih =>
      rw [Spreadsheet.addSelfToNewDeps]
      by_cases hdd : d = hd
      · subst hdd
        exact ih _ _ (lookupCell_modifyCell_self s d _ c hl)
          (mem_insertDep_of_mem _ _ _ hm)
      · have hne := lookupCell_modifyCell_ne s hd d
          (fun c => { c with dependents := insertDep c.dependents cid }) hdd
        have hl' : lookupCell (modifyCell s hd
            (fun c => { c with dependents := insertDep c.dependents cid })) d
              = some c := by rw [hne]; exact hl
        exact ih _ c hl' hm

theorem addSelfToNewDeps_establishes (deps : List CellIdentifier) (s : Store)
    (cid d : CellIdentifier) (hmem : d ∈ deps)
    (hex : (lookupCell s d).isSome = true) :
    ∃ c', lookupCell (Spreadsheet.addSelfToNewDeps s deps cid) d = some c'
      ∧ cid ∈ c'.dependents := by
  induction deps generalizing s with
  | nil => cases hmem
  | cons hd tl ih =>
      rw [Spreadsheet.addSelfToNewDeps]
      by_cases hdd : d = hd
      · subst hdd
        obtain ⟨c, hc⟩ := Option.isSome_iff_exists.mp hex
        exact addSelfToNewDeps_preserves_mem tl _ cid d _
          (lookupCell_modifyCell_self s d _ c hc) (mem_insertDep _ _)
      · have hmem' : d ∈ tl := by
          cases hmem with
          | head => exact absurd rfl hdd
          | tail _ h => exact h
        have hex' : (lookupCell (modifyCell s hd
            (fun c => { c with dependents := insertDep c.dependents cid })) d).isSome
              = true := by
          rw [lookupCell_modifyCell_isSome]; exact hex
        exact ih _ hmem' hex'

/-! ## Commit lemmas -/

theorem lookupCell_update_cell_info_self (s : Store) (cid : CellIdentifier)
    (v : CellValue) (e : String) (deps : List CellIdentifier) (t : Timestamp) :
    lookupCell (Spreadsheet.update_cell_info s cid v e deps t) cid
      = some { value := v, expression := e, dependencies := deps,
               dependents := Spreadsheet.old_dependents_of s cid,
               last_update_time := t } := by
  unfold Spreadsheet.update_cell_info
  exact lookupCell_insertStore_self _ _ _

theorem lookupCell_set_self (s : Store) (cid : CellIdentifier) (e : String)
    (vn : List String) (o : Spreadsheet.EvalOutcome) (t : Timestamp) :
    lookupCell (Spreadsheet.set s cid e vn o t) cid
      = some { value := Spreadsheet.outcomeValue o, expression := e,
               dependencies := computeDependencies vn,
               dependents := Spreadsheet.old_dependents_of s cid,
               last_update_time := t } := by
  cases o with
  | ok v => exact lookupCell_update_cell_info_self s cid v e _ t
  | variableDependsOnError => exact lookupCell_update_cell_info_self s cid _ e _ t

/-! ## C10 -/

/-- C10: for every call `set(id, e)` that returns ok — including when the
expression fails to evaluate locally (the evaluator returns
`Ok(Error(_))`) or when the evaluator signals the transitive error — the
store afterwards contains a record for `id` whose `expression` field
equals `e`; the record is created or overwritten even when the resulting
value is an error. -/
theorem set_commits_record_with_expression (s : Store) (cid : CellIdentifier)
    (e : String) (vn : List String) (o : Spreadsheet.EvalOutcome) (t : Timestamp) :
    ∃ info, lookupCell (Spreadsheet.set s cid e vn o t) cid = some info
      ∧ info.expression = e ∧ info.value = Spreadsheet.outcomeValue o := by
  exact ⟨_, lookupCell_set_self s cid e vn o t, rfl, rfl⟩

/-! ## C1 -/

/-- C1 counterexample: two `set`s on A1 that both commit — the one with
start timestamp 2 computed 20 and committed first, the one with start
timestamp 1 computed 10 and committed second (its evaluation was slower).
The claim demands the final value 20 (greater start timestamp); the code
leaves 10, because `update_cell_info` commits unconditionally. -/
theorem concurrent_sets_timestamp_cx :
    Spreadsheet.get cxStoreOlderLast cxA1 = CellValue.Int 10
    ∧ CellValue.Int 10 ≠ CellValue.Int 20 := by decide

/-- C1 (amended): two concurrent `set`s on the same cell leave the cell
with the value of whichever `set` performs its `update_cell_info` commit
last, regardless of the two start timestamps; the greater-start-timestamp
`set` wins only when the commits happen in start-timestamp order. -/
theorem concurrent_sets_last_commit_wins (s : Store) (cid : CellIdentifier)
    (e1 e2 : String) (vn1 vn2 : List String)
    (o1 o2 : Spreadsheet.EvalOutcome) (t1 t2 : Timestamp) :
    (lookupCell (Spreadsheet.set (Spreadsheet.set s cid e1 vn1 o1 t1)
        cid e2 vn2 o2 t2) cid).map CellInfo.value
      = some (Spreadsheet.outcomeValue o2)
    ∧ (lookupCell (Spreadsheet.set (Spreadsheet.set s cid e1 vn1 o1 t1)
        cid e2 vn2 o2 t2) cid).map CellInfo.last_update_time = some t2 := by
  rw [lookupCell_set_self]
  exact ⟨rfl, rfl⟩

/-! ## C7 -/

/-- C7 counterexample: a committed `set` write decreases a cell's
`last_update_time`.  After the time-2 `set` committed, the record holds
timestamp 2; the slower time-1 `set` then commits and the record holds
timestamp 1 — a strict decrease. -/
theorem last_update_time_decrease_cx :
    (lookupCell cxStoreNewerFirst cxA1).map CellInfo.last_update_time = some 2
    ∧ (lookupCell cxStoreOlderLast cxA1).map CellInfo.last_update_time = some 1
    ∧ (1 : Timestamp) < 2 := by decide

/-- C7 (amended): the worker's recomputation commit never decreases a
cell's `last_update_time` (the guard admits only strictly greater
timestamps), and a `set` commit does not decrease it provided the `set`'s
start time is at least the cell's current `last_update_time` — which holds
whenever `set`s on the cell do not overlap; an overlapping slower `set`
can decrease it. -/
theorem last_update_time_monotone_amended :
    (∀ cells cid o t c c', lookupCell cells cid = some c →
        lookupCell (Spreadsheet.commitRecompute cells cid o t) cid = some c' →
        c.last_update_time ≤ c'.last_update_time)
    ∧ (∀ s cid v e deps t c c', lookupCell s cid = some c →
        c.last_update_time ≤ t →
        lookupCell (Spreadsheet.update_cell_info s cid v e deps t) cid = some c' →
        c.last_update_time ≤ c'.last_update_time) := by
  constructor
  · intro cells cid o t c c' hc hc'
    cases o with
    | ok v =>
        rw [Spreadsheet.commitRecompute,
          lookupCell_modifyCell_self cells cid _ c hc] at hc'
        injection hc' with hc'
        subst hc'
        by_cases hg : c.last_update_time < t
        · simp only [hg, if_true]
          exact Nat.le_of_lt hg
        · simp only [hg, if_false]
          exact Nat.le_refl _
    | variableDependsOnError =>
        rw [Spreadsheet.commitRecompute,
          lookupCell_modifyCell_self cells cid _ c hc] at hc'
        injection hc' with hc'
        subst hc'
        by_cases hg : c.last_update_time < t
        · simp only [hg, if_true]
          exact Nat.le_of_lt hg
        · simp only [hg, if_false]
          exact Nat.le_refl _
  · intro s cid v e deps t c c' hc hle hc'
    rw [lookupCell_update_cell_info_self] at hc'
    injection hc' with hc'
    subst hc'
    exact hle

/-- C7 amended witness: the worker guard applied at a concrete store — the
recompute at time 5 over a record last written at time 2 yields a record
whose timestamp is not smaller. -/
theorem last_update_time_monotone_amended_w :
    ({ value := CellValue.Int 5, expression := "5", dependencies := [],
       dependents := [cxB1], last_update_time := 1 } : CellInfo).last_update_time
      ≤ ({ value := CellValue.Int 7, expression := "5", dependencies := [],
           dependents := [cxB1], last_update_time := 5 } : CellInfo).last_update_time :=
  last_update_time_monotone_amended.1 cxChain2 cxA1 (.ok (.Int 7)) 5 _ _
    (by decide) (by decide)

/-! ## C2 -/

/-- C2 counterexample: `set C1 "B1 + 1"` (recording forward dep B1 while
B1 does not exist), then `set B1 "5"` creating B1.  Now B1 ∈
forward_deps(C1) and B1 exists in the store, yet C1 ∉ reverse_deps(B1):
creating a cell does not backfill reverse deps from earlier `set`s, so
the claimed invariant fails on this reachable state. -/
theorem dep_integrity_cx :
    (lookupCell cxStoreLateTarget cxC1).map
        (fun i => decide (cxB1 ∈ i.dependencies)) = some true
    ∧ (lookupCell cxStoreLateTarget cxB1).isSome = true
    ∧ (lookupCell cxStoreLateTarget cxB1).map
        (fun i => decide (cxC1 ∈ i.dependents)) = some false := by decide

/-- C2 (amended): the bidirectional-dependency property holds only for
targets that already exist at commit time — after
`update_cell_info s C v e deps t`, every D ∈ deps with D ≠ C that
existed in `s` lists C in its reverse deps.  A `set` that creates D
later does not backfill `reverse_deps(D)` for earlier dependents. -/
theorem update_adds_dependent_when_target_exists (s : Store)
    (cid : CellIdentifier) (v : CellValue) (e : String)
    (deps : List CellIdentifier) (t : Timestamp) (d : CellIdentifier)
    (hmem : d ∈ deps) (hne : d ≠ cid)
    (hex : (lookupCell s d).isSome = true) :
    ∃ c', lookupCell (Spreadsheet.update_cell_info s cid v e deps t) d = some c'
      ∧ cid ∈ c'.dependents := by
  have hex1 : (lookupCell (Spreadsheet.removeSelfFromOldDeps s
      (Spreadsheet.old_dependencies_of s cid) cid) d).isSome = true := by
    rw [removeSelfFromOldDeps_isSome]
    exact hex
  obtain ⟨c', hc', hm⟩ := addSelfToNewDeps_establishes deps _ cid d hmem hex1
  refine ⟨c', ?_, hm⟩
  simp only [Spreadsheet.update_cell_info]
  rw [lookupCell_insertStore_ne _ _ _ _ hne]
  exact hc'

/-- C2 amended witness: committing `B1 := "A1 + 1"` with forward dep A1
while A1 already exists does add B1 to reverse_deps(A1). -/
theorem update_adds_dependent_when_target_exists_w :
    ∃ c', lookupCell (Spreadsheet.update_cell_info cxChain1 cxB1
        (CellValue.Int 6) "A1 + 1" [cxA1] 2) cxA1 = some c'
      ∧ cxB1 ∈ c'.dependents :=
  update_adds_dependent_when_target_exists cxChain1 cxB1 (CellValue.Int 6)
    "A1 + 1" [cxA1] 2 cxA1 (by decide) (by decide) (by decide)

/-! ## C3 -/

/-- C3: for every cell and worker recomputation, if the recompute's
timestamp is strictly greater than the cell's current
`last_update_time`, the worker writes the newly evaluated value and sets
`last_update_time` to that timestamp; otherwise it leaves both the value
and `last_update_time` (indeed the whole record) unchanged. -/
theorem worker_commit_timestamp_guard (cells : Store) (cid : CellIdentifier)
    (o : Spreadsheet.EvalOutcome) (t : Timestamp) (c : CellInfo)
    (hc : lookupCell cells cid = some c) :
    (c.last_update_time < t →
       lookupCell (Spreadsheet.commitRecompute cells cid o t) cid
         = some { c with
             value := Spreadsheet.outcomeValue o
             last_update_time := t })
    ∧ (¬ c.last_update_time < t →
       lookupCell (Spreadsheet.commitRecompute cells cid o t) cid = some c) := by
  constructor <;> intro hg <;> cases o <;>
    rw [Spreadsheet.commitRecompute, lookupCell_modifyCell_self cells cid _ c hc] <;>
    simp [hg, Spreadsheet.outcomeValue]

/-- C3 witness: a recompute at time 5 over a record last written at time
1 commits the new value and the timestamp 5. -/
theorem worker_commit_timestamp_guard_w :
    lookupCell (Spreadsheet.commitRecompute cxChain2 cxA1
        (.ok (CellValue.Int 7)) 5) cxA1
      = some { value := CellValue.Int 7, expression := "5", dependencies := [],
               dependents := [cxB1], last_update_time := 5 } :=
  (worker_commit_timestamp_guard cxChain2 cxA1 (.ok (CellValue.Int 7)) 5
    { value := CellValue.Int 5, expression := "5", dependencies := [],
      dependents := [cxB1], last_update_time := 1 } (by decide)).1 (by decide)

/-! ## C4 -/

theorem errorAt_eq_true_iff (cells : Store) (d : CellIdentifier) :
    Spreadsheet.errorAt cells d = true
      ↔ ∃ di, lookupCell cells d = some di ∧ di.value.isError = true := by
  unfold Spreadsheet.errorAt
  cases h : lookupCell cells d with
  | none => simp
  | some di => simp

/-- C4: `get(id)` returns absent when no record for `id` exists; when a
record exists, it returns `Error "VariableDependsOnError"` if some dep in
the record's forward deps exists in the store and currently holds an
error value, and otherwise returns the cell's stored value. -/
theorem get_characterization (cells : Store) (cid : CellIdentifier) :
    (lookupCell cells cid = none → Spreadsheet.get cells cid = CellValue.None)
    ∧ (∀ info, lookupCell cells cid = some info →
        ((∃ d ∈ info.dependencies, ∃ di, lookupCell cells d = some di
            ∧ di.value.isError = true) →
          Spreadsheet.get cells cid = CellValue.Error "VariableDependsOnError")
        ∧ (¬ (∃ d ∈ info.dependencies, ∃ di, lookupCell cells d = some di
            ∧ di.value.isError = true) →
          Spreadsheet.get cells cid = info.value)) := by
  have hany : ∀ info : CellInfo,
      (info.dependencies.any (fun dep => Spreadsheet.errorAt cells dep) = true)
        ↔ ∃ d ∈ info.dependencies, ∃ di, lookupCell cells d = some di
            ∧ di.value.isError = true := by
    intro info
    rw [List.any_eq_true]
    constructor
    · rintro ⟨d, hd, he⟩
      exact ⟨d, hd, (errorAt_eq_true_iff cells d).mp he⟩
    · rintro ⟨d, hd, he⟩
      exact ⟨d, hd, (errorAt_eq_true_iff cells d).mpr he⟩
  constructor
  · intro h
    unfold Spreadsheet.get
    rw [h]
  · intro info hinfo
    constructor
    · intro hex
      have hb : info.dependencies.any (fun dep => Spreadsheet.errorAt cells dep)
          = true := (hany info).mpr hex
      simp [Spreadsheet.get, hinfo, hb]
    · intro hnex
      have hb : info.dependencies.any (fun dep => Spreadsheet.errorAt cells dep)
          = false := by
        cases h : info.dependencies.any (fun dep => Spreadsheet.errorAt cells dep) with
        | false => rfl
        | true => exact absurd ((hany info).mp h) hnex
      simp [Spreadsheet.get, hinfo, hb]

/-- C4 witness: with A1 holding a local error and B1 depending on A1,
`get B1` projects the transitive error at read time. -/
theorem get_characterization_w :
    Spreadsheet.get cxErrStore2 cxB1 = CellValue.Error "VariableDependsOnError" :=
  ((get_characterization cxErrStore2 cxB1).2
    { value := CellValue.Error "VariableDependsOnError", expression := "A1 + 1",
      dependencies := [cxA1], dependents := [], last_update_time := 2 }
    (by decide)).1
    ⟨cxA1, by decide,
      { value := CellValue.Error "x", expression := "bad", dependencies := [],
        dependents := [cxB1], last_update_time := 1 }, by decide, by decide⟩

/-! ## C8 -/

theorem rangeIncl_eq_nil {a b : Nat} (h : b < a) : rangeIncl a b = [] := by
  unfold rangeIncl
  have hz : b + 1 - a = 0 := by omega
  rw [hz]
  rfl

theorem rangeIncl_length (a b : Nat) : (rangeIncl a b).length = b + 1 - a := by
  simp [rangeIncl]

theorem rangeHasErrors_iff (cells : Store) (s e : CellIdentifier) :
    Spreadsheet.rangeHasErrors cells s e = true
      ↔ ∃ cid ∈ rangeCells s e, ∃ di, lookupCell cells cid = some di
          ∧ di.value.isError = true := by
  unfold Spreadsheet.rangeHasErrors rangeCells
  simp only [List.any_eq_true, List.mem_flatMap, List.mem_map]
  constructor
  · rintro ⟨row, hrow, col, hcol, he⟩
    exact ⟨⟨col, row⟩, ⟨row, hrow, ⟨col, hcol, rfl⟩⟩,
      (errorAt_eq_true_iff cells ⟨col, row⟩).mp he⟩
  · rintro ⟨cid, ⟨row, hrow, ⟨col, hcol, hcid⟩⟩, hdi⟩
    subst hcid
    exact ⟨row, hrow, col, hcol, (errorAt_eq_true_iff cells ⟨col, row⟩).mpr hdi⟩

/-- C8: for every well-formed range, if any cell inside the range
currently holds an error value, the resolver binds the single scalar
`Error "VariableDependsOnError"`; otherwise it binds the shaped
container — a vector for single-column or single-row ranges, and a
row-major matrix (with at least 2 rows and 2 columns) otherwise. -/
theorem range_argument_characterization (cells : Store) (s e : CellIdentifier)
    (hc : s.col ≤ e.col) (hr : s.row ≤ e.row) :
    ((∃ cid ∈ rangeCells s e, ∃ di, lookupCell cells cid = some di
        ∧ di.value.isError = true) →
      Spreadsheet.get_range_argument cells s e
        = CellArgument.Value (CellValue.Error "VariableDependsOnError"))
    ∧ (¬ (∃ cid ∈ rangeCells s e, ∃ di, lookupCell cells cid = some di
        ∧ di.value.isError = true) →
      (s.col = e.col →
        Spreadsheet.get_range_argument cells s e
          = CellArgument.Vector ((rangeIncl s.row e.row).map (fun row =>
              Spreadsheet.get cells ⟨s.col, row⟩)))
      ∧ (s.col ≠ e.col → s.row = e.row →
        Spreadsheet.get_range_argument cells s e
          = CellArgument.Vector ((rangeIncl s.col e.col).map (fun col =>
              Spreadsheet.get cells ⟨col, s.row⟩)))
      ∧ (s.col ≠ e.col → s.row ≠ e.row →
        Spreadsheet.get_range_argument cells s e
          = CellArgument.Matrix ((rangeIncl s.row e.row).map (fun row =>
              (rangeIncl s.col e.col).map (fun col =>
                Spreadsheet.get cells ⟨col, row⟩)))
        ∧ 2 ≤ (rangeIncl s.row e.row).length
        ∧ (∀ r ∈ (rangeIncl s.row e.row).map (fun row =>
            (rangeIncl s.col e.col).map (fun col =>
              Spreadsheet.get cells ⟨col, row⟩)), r.length = e.col + 1 - s.col)
        ∧ 2 ≤ e.col + 1 - s.col)) := by
  constructor
  · intro hex
    have hb : Spreadsheet.rangeHasErrors cells s e = true :=
      (rangeHasErrors_iff cells s e).mpr hex
    simp [Spreadsheet.get_range_argument, hb]
  · intro hnex
    have hb : Spreadsheet.rangeHasErrors cells s e = false := by
      cases h : Spreadsheet.rangeHasErrors cells s e with
      | false => rfl
      | true => exact absurd ((rangeHasErrors_iff cells s e).mp h) hnex
    refine ⟨?_, ?_, ?_⟩
    · intro h1
      simp [Spreadsheet.get_range_argument, hb, h1,
        Spreadsheet.get_vertical_vector]
    · intro h1 h2
      simp [Spreadsheet.get_range_argument, hb, h1, h2,
        Spreadsheet.get_horizontal_vector]
    · intro h1 h2
      refine ⟨?_, ?_, ?_, ?_⟩
      · simp [Spreadsheet.get_range_argument, hb, h1, h2, Spreadsheet.get_matrix]
      · rw [rangeIncl_length]
        omega
      · intro r hrm
        simp only [List.mem_map] at hrm
        obtain ⟨row, _, rfl⟩ := hrm
        rw [List.length_map, rangeIncl_length]
      · omega

/-- C8 witness: the range A1:B2 over a store where A1 holds an error is
bound to the scalar transitive-error value. -/
theorem range_argument_characterization_w :
    Spreadsheet.get_range_argument cxErrStore cxA1 ⟨1, 1⟩
      = CellArgument.Value (CellValue.Error "VariableDependsOnError") :=
  (range_argument_characterization cxErrStore cxA1 ⟨1, 1⟩
    (by decide) (by decide)).1
    ⟨cxA1, by decide,
      { value := CellValue.Error "x", expression := "bad", dependencies := [],
        dependents := [], last_update_time := 1 }, by decide, by decide⟩

/-! ## C9 -/

/-- C9 counterexample: the reversed range token `"B2_A1"` (violating
start.col ≤ end.col and start.row ≤ end.row) is *not* treated as a parse
failure: `parse_range` accepts it, and `resolve_variables` creates a
binding for the variable (a degenerate empty matrix) — only the
dependency expansion is empty. -/
theorem reversed_range_skipped_cx :
    parse_range "B2_A1" = some (⟨1, 1⟩, ⟨0, 0⟩)
    ∧ Spreadsheet.resolve_variables [] ["B2_A1"]
        = [("B2_A1", CellArgument.Matrix [])]
    ∧ (blookup (Spreadsheet.resolve_variables [] ["B2_A1"]) "B2_A1").isSome = true
    ∧ computeDependencies ["B2_A1"] = [] := by decide

theorem rangeCells_eq_nil (s e : CellIdentifier)
    (h : e.col < s.col ∨ e.row < s.row) : rangeCells s e = [] := by
  cases h with
  | inl hcol =>
      unfold rangeCells
      rw [rangeIncl_eq_nil hcol]
      simp
  | inr hrow =>
      unfold rangeCells
      rw [rangeIncl_eq_nil hrow]
      simp

/-- C9 (amended): a range token whose endpoints parse but violate
start.col ≤ end.col or start.row ≤ end.row is *not* rejected: no
dependencies are recorded for it (the expanded rectangle is empty), but
`resolve_variables` still creates a binding for the variable (a
degenerate container over the empty rectangle). -/
theorem reversed_range_amended (cells : Store) (name : String)
    (s e : CellIdentifier) (hu : hasUnderscore name = true)
    (hp : parse_range name = some (s, e))
    (hrev : e.col < s.col ∨ e.row < s.row) :
    computeDependencies [name] = []
    ∧ (blookup (Spreadsheet.resolve_variables cells [name]) name).isSome
        = true := by
  have hcells : rangeCells s e = [] := rangeCells_eq_nil s e hrev
  constructor
  · simp [computeDependencies, hu, hp, hcells]
  · simp [Spreadsheet.resolve_variables, hu, hp, bput, blookup]

/-- C9 amended witness: the reversed range `"B2_A1"` records no
dependencies yet receives a binding. -/
theorem reversed_range_amended_w :
    computeDependencies ["B2_A1"] = []
    ∧ (blookup (Spreadsheet.resolve_variables [] ["B2_A1"]) "B2_A1").isSome
        = true :=
  reversed_range_amended [] "B2_A1" ⟨1, 1⟩ ⟨0, 0⟩ (by decide) (by decide)
    (by decide)

/-! ## C6 -/

/-- C6 counterexample: on a store where A1 holds `Error "x"` and A2 is
missing, the worker's Stage-3 gather binds the range `"A1_A2"` to the
raw shaped container `Vector [Error "x", None]`, while the Variable
Resolver of §4.3 binds the single scalar
`Error "VariableDependsOnError"` — the two bindings maps differ. -/
theorem worker_gather_resolver_cx :
    Spreadsheet.worker_gather cxErrStore ["A1_A2"]
      = [("A1_A2", CellArgument.Vector [CellValue.Error "x", CellValue.None])]
    ∧ Spreadsheet.resolve_variables cxErrStore ["A1_A2"]
      = [("A1_A2", CellArgument.Value (CellValue.Error "VariableDependsOnError"))]
    ∧ Spreadsheet.worker_gather cxErrStore ["A1_A2"]
      ≠ Spreadsheet.resolve_variables cxErrStore ["A1_A2"] := by decide

/-- C6 (amended): the worker's Stage-3 gather does not coincide with the
§4.3 resolver: it binds a range variable to the shaped container of raw
stored values (missing cells as absent) and never to the scalar error —
there is no error short-circuit — and it binds a scalar variable only
when the cell exists (to its raw stored value), whereas the resolver
always binds a parsed scalar through `get` (absent when missing). -/
theorem worker_gather_amended :
    (∀ cells name s e, hasUnderscore name = true →
        parse_range name = some (s, e) →
        blookup (Spreadsheet.worker_gather cells [name]) name
          = some (Spreadsheet.worker_range_argument cells s e)
        ∧ ∀ msg, Spreadsheet.worker_range_argument cells s e
            ≠ CellArgument.Value (CellValue.Error msg))
    ∧ (∀ cells name cid, hasUnderscore name = false →
        parseCellIdentifier name = some cid →
        blookup (Spreadsheet.worker_gather cells [name]) name
          = (lookupCell cells cid).map (fun c => CellArgument.Value c.value)
        ∧ blookup (Spreadsheet.resolve_variables cells [name]) name
          = some (CellArgument.Value (Spreadsheet.get cells cid))) := by
  constructor
  · intro cells name s e hu hp
    constructor
    · simp [Spreadsheet.worker_gather, hu, hp, bput, blookup]
    · intro msg
      unfold Spreadsheet.worker_range_argument
      by_cases h1 : s.col = e.col
      · simp [h1]
      · by_cases h2 : s.row = e.row <;> simp [h1, h2]
  · intro cells name cid hu hp
    constructor
    · cases hl : lookupCell cells cid with
      | none => simp [Spreadsheet.worker_gather, hu, hp, hl, blookup]
      | some c => simp [Spreadsheet.worker_gather, hu, hp, hl, bput, blookup]
    · simp [Spreadsheet.resolve_variables, hu, hp, bput, blookup]

/-- C6 amended witness: the worker binds the error-containing range
`"A1_A2"` to its raw shaped container, not to the scalar error. -/
theorem worker_gather_amended_w :
    blookup (Spreadsheet.worker_gather cxErrStore ["A1_A2"]) "A1_A2"
      = some (Spreadsheet.worker_range_argument cxErrStore ⟨0, 0⟩ ⟨0, 1⟩) :=
  (worker_gather_amended.1 cxErrStore "A1_A2" ⟨0, 0⟩ ⟨0, 1⟩
    (by decide) (by decide)).1

/-! ## C5 -/

theorem mem_insertDep_elim (l : List CellIdentifier) (c x : CellIdentifier)
    (h : x ∈ insertDep l c) : x ∈ l ∨ x = c := by
  unfold insertDep at h
  by_cases hm : c ∈ l
  · simp [hm] at h
    exact Or.inl h
  · simp [hm] at h
    exact h

theorem graphNodes_cons (k0 : CellIdentifier) (vs : List CellIdentifier)
    (tl : Spreadsheet.Graph) :
    Spreadsheet.graphNodes ((k0, vs) :: tl)
      = (k0 :: vs) ++ Spreadsheet.graphNodes tl := by
  simp [Spreadsheet.graphNodes]

theorem graphLookup_subset (g : Spreadsheet.Graph) (k x : CellIdentifier)
    (h : x ∈ Spreadsheet.graphLookup g k) : x ∈ Spreadsheet.graphNodes g := by
  induction g with
  | nil => simp [Spreadsheet.graphLookup] at h
  | cons hd tl ih =>
      obtain ⟨k0, vs⟩ := hd
      unfold Spreadsheet.graphLookup at h
      rw [graphNodes_cons]
      by_cases hk : k0 = k
      · rw [if_pos hk] at h
        simp [h]
      · rw [if_neg hk] at h
        simp [ih h]

theorem graphKeys_subset (g : Spreadsheet.Graph) (k : CellIdentifier)
    (h : k ∈ Spreadsheet.graphKeys g) : k ∈ Spreadsheet.graphNodes g := by
  induction g with
  | nil => simp [Spreadsheet.graphKeys] at h
  | cons hd tl ih =>
      obtain ⟨k0, vs⟩ := hd
      rw [graphNodes_cons]
      simp only [Spreadsheet.graphKeys, List.map_cons, List.mem_cons] at h
      cases h with
      | inl h => simp [h]
      | inr h => simp [ih h]

theorem graphInsert_nodes (g : Spreadsheet.Graph) (k v x : CellIdentifier)
    (h : x ∈ Spreadsheet.graphNodes (Spreadsheet.graphInsert g k v)) :
    x ∈ Spreadsheet.graphNodes g ∨ x = k ∨ x = v := by
  induction g with
  | nil =>
      simp [Spreadsheet.graphInsert, Spreadsheet.graphNodes] at h
      exact Or.inr h
  | cons hd tl ih =>
      obtain ⟨k0, vs⟩ := hd
      unfold Spreadsheet.graphInsert at h
      by_cases hk : k0 = k
      · rw [if_pos hk] at h
        rw [graphNodes_cons] at h
        rw [graphNodes_cons]
        simp only [List.cons_append, List.mem_cons, List.mem_append] at h ⊢
        rcases h with h | h
        · exact Or.inr (Or.inl h)
        · rcases h with h | h
          · rcases mem_insertDep_elim vs v x h with h2 | h2
            · exact Or.inl (Or.inr (Or.inl h2))
            · exact Or.inr (Or.inr h2)
          · exact Or.inl (Or.inr (Or.inr h))
      · rw [if_neg hk] at h
        rw [graphNodes_cons] at h
        rw [graphNodes_cons]
        simp only [List.cons_append, List.mem_cons, List.mem_append] at h ⊢
        rcases h with h | h
        · exact Or.inl (Or.inl h)
        · rcases h with h | h
          · exact Or.inl (Or.inr (Or.inl h))
          · rcases ih h with h2 | h2
            · exact Or.inl (Or.inr (Or.inr h2))
            · exact Or.inr h2

theorem bfsStep_fold_inv (cells : Store) (origin current : CellIdentifier)
    (hcur : Reaches cells origin current) (deps : List CellIdentifier) :
    ∀ (g : Spreadsheet.Graph) (d q : List CellIdentifier),
      (∀ x ∈ deps, Reaches cells origin x) →
      (∀ x ∈ Spreadsheet.graphNodes g, Reaches cells origin x) →
      (∀ x ∈ q, Reaches cells origin x) →
      (∀ x ∈ Spreadsheet.graphNodes
          (deps.foldl (Spreadsheet.bfsStep current) (g, d, q)).1,
        Reaches cells origin x)
      ∧ (∀ x ∈ (deps.foldl (Spreadsheet.bfsStep current) (g, d, q)).2.2,
        Reaches cells origin x) := by
  induction deps with
  | nil =>
      intro g d q _ hg hq
      exact ⟨hg, hq⟩
  | cons dep rest ih =>
      intro g d q hdeps hg hq
      rw [List.foldl_cons]
      have hdep : Reaches cells origin dep := hdeps dep (List.mem_cons_self _ _)
      have hrest : ∀ x ∈ rest, Reaches cells origin x :=
        fun x hx => hdeps x (List.mem_cons_of_mem _ hx)
      have hg' : ∀ x ∈ Spreadsheet.graphNodes (Spreadsheet.graphInsert g dep current),
          Reaches cells origin x := by
        intro x hx
        rcases graphInsert_nodes g dep current x hx with h | h | h
        · exact hg x h
        · exact h ▸ hdep
        · exact h ▸ hcur
      have hq' : ∀ x ∈ (if dep ∈ d then q else q ++ [dep]),
          Reaches cells origin x := by
        intro x hx
        by_cases hm : dep ∈ d
        · rw [if_pos hm] at hx
          exact hq x hx
        · rw [if_neg hm] at hx
          rcases List.mem_append.mp hx with h | h
          · exact hq x h
          · rw [List.mem_singleton.mp h]
            exact hdep
      exact ih (Spreadsheet.graphInsert g dep current) _ _ hrest hg' hq'

theorem bfsLoop_graph_reachable (cells : Store) (origin : CellIdentifier) :
    ∀ (fuel : Nat) (queue discovered : List CellIdentifier)
      (graph : Spreadsheet.Graph),
      (∀ x ∈ queue, Reaches cells origin x) →
      (∀ x ∈ Spreadsheet.graphNodes graph, Reaches cells origin x) →
      ∀ x ∈ Spreadsheet.graphNodes
          (Spreadsheet.bfsLoop cells fuel queue discovered graph).1,
        Reaches cells origin x := by
  intro fuel
  induction fuel with
  | zero =>
      intro queue d g hq hg x hx
      rw [Spreadsheet.bfsLoop] at hx
      exact hg x hx
  | succ fuel ih =>
      intro queue d g hq hg
      cases queue with
      | nil =>
          intro x hx
          rw [Spreadsheet.bfsLoop] at hx
          exact hg x hx
      | cons current rest =>
          rw [Spreadsheet.bfsLoop]
          have hcur : Reaches cells origin current :=
            hq current (List.mem_cons_self _ _)
          have hdeps : ∀ x ∈ Spreadsheet.dependentsOf cells current,
              Reaches cells origin x :=
            fun x hx => Reaches.step hcur hx
          have hrest : ∀ x ∈ rest, Reaches cells origin x :=
            fun x hx => hq x (List.mem_cons_of_mem _ hx)
          obtain ⟨hg', hq'⟩ := bfsStep_fold_inv cells origin current hcur
            (Spreadsheet.dependentsOf cells current) g d rest hdeps hg hrest
          exact ih _ _ _ hq' hg'

theorem visitTopo_sorted_subset (graph : Spreadsheet.Graph) :
    ∀ (fuel : Nat) (node : CellIdentifier)
      (perm temp sorted : List CellIdentifier) (x : CellIdentifier),
      x ∈ (Spreadsheet.visitTopo graph fuel node perm temp sorted).2.2 →
      x ∈ sorted ∨ x = node ∨ x ∈ Spreadsheet.graphNodes graph := by
  intro fuel
  induction fuel with
  | zero =>
      intro node perm temp sorted x hx
      rw [Spreadsheet.visitTopo] at hx
      exact Or.inl hx
  | succ fuel ih =>
      intro node perm temp sorted x hx
      rw [Spreadsheet.visitTopo] at hx
      by_cases h1 : node ∈ perm
      · rw [if_pos h1] at hx
        exact Or.inl hx
      · rw [if_neg h1] at hx
        by_cases h2 : node ∈ temp
        · rw [if_pos h2] at hx
          exact Or.inl hx
        · rw [if_neg h2] at hx
          simp only at hx
          rcases List.mem_append.mp hx with hx' | hx'
          · have hsub : ∀ dd ∈ Spreadsheet.graphLookup graph node,
                dd ∈ Spreadsheet.graphNodes graph :=
              fun dd hdd => graphLookup_subset graph node dd hdd
            have hfold : ∀ (deps : List CellIdentifier)
                (st : List CellIdentifier × List CellIdentifier × List CellIdentifier),
                (∀ dd ∈ deps, dd ∈ Spreadsheet.graphNodes graph) →
                x ∈ (deps.foldl (fun st dep =>
                    Spreadsheet.visitTopo graph fuel dep st.1 st.2.1 st.2.2) st).2.2 →
                x ∈ st.2.2 ∨ x ∈ Spreadsheet.graphNodes graph := by
              intro deps
              induction deps with
              | nil =>
                  intro st _ hmem
                  exact Or.inl hmem
              | cons dep rest ihd =>
                  intro st hdeps hmem
                  rw [List.foldl_cons] at hmem
                  have hdeprest : ∀ dd ∈ rest, dd ∈ Spreadsheet.graphNodes graph :=
                    fun dd hdd => hdeps dd (List.mem_cons_of_mem _ hdd)
                  rcases ihd _ hdeprest hmem with hin | hin
                  · rcases ih dep st.1 st.2.1 st.2.2 x hin with h | h | h
                    · exact Or.inl h
                    · exact Or.inr (h ▸ hdeps dep (List.mem_cons_self _ _))
                    · exact Or.inr h
                  · exact Or.inr hin
            rcases hfold (Spreadsheet.graphLookup graph node) (perm, node :: temp, sorted)
              hsub hx' with h | h
            · exact Or.inl h
            · exact Or.inr (Or.inr h)
          · rw [List.mem_singleton.mp hx']
            exact Or.inr (Or.inl rfl)

theorem topoSort_subset (graph : Spreadsheet.Graph) (fuel : Nat)
    (x : CellIdentifier) (hx : x ∈ Spreadsheet.topoSort graph fuel) :
    x ∈ Spreadsheet.graphNodes graph := by
  unfold Spreadsheet.topoSort at hx
  have hfold : ∀ (keys : List CellIdentifier)
      (st : List CellIdentifier × List CellIdentifier × List CellIdentifier),
      (∀ k ∈ keys, k ∈ Spreadsheet.graphNodes graph) →
      x ∈ (keys.foldl (fun st node => if node ∈ st.1 then st
          else Spreadsheet.visitTopo graph fuel node st.1 st.2.1 st.2.2) st).2.2 →
      x ∈ st.2.2 ∨ x ∈ Spreadsheet.graphNodes graph := by
    intro keys
    induction keys with
    | nil =>
        intro st _ hmem
        exact Or.inl hmem
    | cons key rest ihk =>
        intro st hkeys hmem
        rw [List.foldl_cons] at hmem
        have hkrest : ∀ k ∈ rest, k ∈ Spreadsheet.graphNodes graph :=
          fun k hk => hkeys k (List.mem_cons_of_mem _ hk)
        by_cases hp : key ∈ st.1
        · rw [if_pos hp] at hmem
          exact ihk st hkrest hmem
        · rw [if_neg hp] at hmem
          rcases ihk _ hkrest hmem with hin | hin
          · rcases visitTopo_sorted_subset graph fuel key st.1 st.2.1 st.2.2 x hin
              with h | h | h
            · exact Or.inl h
            · exact Or.inr (h ▸ hkeys key (List.mem_cons_self _ _))
            · exact Or.inr h
          · exact Or.inr hin
  have hkeys : ∀ k ∈ Spreadsheet.graphKeys graph,
      k ∈ Spreadsheet.graphNodes graph :=
    fun k hk => graphKeys_subset graph k hk
  rcases hfold (Spreadsheet.graphKeys graph) ([], [], []) hkeys hx with h | h
  · cases h
  · exact h

/-- C5 counterexample: after `set A1 "5"` then `set B1 "A1 + 1"`, the
change event for A1 makes the worker's recomputation order contain A1
itself (the originating cell), and processing that order re-evaluates
and writes A1: its `last_update_time` advances from 1 (the `set`'s
commit) to 3 (the worker's commit). -/
theorem worker_recomputes_origin_cx :
    cxA1 ∈ Spreadsheet.update_order cxChain2 cxA1 10
    ∧ (lookupCell (Spreadsheet.processOrderedCells cxVarNames cxEval cxChain2
        (Spreadsheet.update_order cxChain2 cxA1 10) [3, 4]) cxA1).map
          CellInfo.last_update_time = some 3
    ∧ (lookupCell cxChain2 cxA1).map CellInfo.last_update_time = some 1 := by
  decide

/-- C5 (amended): every cell in the worker's recomputation order is
reachable from the originating cell along `reverse_deps` edges — in zero
or more steps.  The originating cell itself is not excluded: it heads
the order whenever it has at least one dependent (see the
counterexample), so only the "transitive consumers" half of the claim
survives, weakened to reflexive-transitive reachability. -/
theorem update_order_only_reverse_reachable (cells : Store)
    (origin : CellIdentifier) (fuel : Nat) (c : CellIdentifier)
    (hc : c ∈ Spreadsheet.update_order cells origin fuel) :
    Reaches cells origin c := by
  unfold Spreadsheet.update_order at hc
  have hnodes : c ∈ Spreadsheet.graphNodes
      (Spreadsheet.bfsLoop cells fuel [origin] [origin] []).1 :=
    topoSort_subset _ fuel c hc
  exact bfsLoop_graph_reachable cells origin fuel [origin] [origin] []
    (fun x hx => by rw [List.mem_singleton.mp hx]; exact Reaches.refl origin)
    (fun x hx => by cases hx) c hnodes

/-- C5 amended witness: B1 appears in the order for A1's change event,
and it is indeed reachable from A1 along reverse-dep edges. -/
theorem update_order_only_reverse_reachable_w :
    Reaches cxChain2 cxA1 cxB1 :=
  update_order_only_reverse_reachable cxChain2 cxA1 10 cxB1 (by decide)
